import Mathlib

/-!
Verification of the cable-price dashboard core (`app.py`): the text
extractor `load_and_process_data`, the per-size change statistics
`calculate_price_changes`, the selection filter and the pivot step.

The Python source works line by line over the raw text with three
regular-expression recognizers.  We embed the recognizers as executable
functions over `List Char` that implement the leftmost-match semantics of
`re.search` for the three concrete patterns of the source:
  year  : `(\d{4})년`
  size  : `(\d+(?:\.\d+)?SQ)`
  price : `(\d{1,3}(?:,\d{3})*)`
Machine integers are modelled as `Nat` (all parsed literals are
non-negative), float arithmetic of the statistics as real arithmetic,
and fallible steps (`int(...)` conversion, the pandas `sort_values` /
`pivot` calls that can raise) as `Except String`.
-/

instance {ε α : Type _} [DecidableEq ε] [DecidableEq α] : DecidableEq (Except ε α) := fun x y =>
  match x, y with
  | .error a, .error b =>
    if h : a = b then .isTrue (h ▸ rfl) else .isFalse (fun hh => h (by injection hh))
  | .error _, .ok _ => .isFalse (fun hh => Except.noConfusion hh)
  | .ok _, .error _ => .isFalse (fun hh => Except.noConfusion hh)
  | .ok a, .ok b =>
    if h : a = b then .isTrue (h ▸ rfl) else .isFalse (fun hh => h (by injection hh))

/-- One extracted price record: `{'year': ..., 'size': ..., 'price': ...}`
as appended to `cable_data` in `load_and_process_data`. -/
structure PriceRecord where
  year : Nat
  size : String
  price : Nat
deriving DecidableEq, Repr, Inhabited

/-- The rolling scanner state of the extraction loop:
`current_year` / `current_size` (both `None` initially). The source keeps
`current_year` as the matched digit string and converts with `int` only
when a record is appended, so we store the matched characters. -/
structure ScanState where
  current_year : Option (List Char)
  current_size : Option (List Char)
deriving DecidableEq, Repr

/-- `text.split('\n')`: split a character list at newline characters;
the empty text yields one empty line, like Python `''.split('\n')`. -/
def splitLines : List Char → List (List Char)
  | [] => [[]]
  | c :: rest =>
    if c = '\n' then [] :: splitLines rest
    else
      match splitLines rest with
      | [] => [[c]]
      | l :: ls => (c :: l) :: ls

/-- `re.search(r'(\d{4})년', line)`: leftmost position where four digits
are immediately followed by the character `년`; returns the four digits
(capture group 1). -/
def findYear : List Char → Option (List Char)
  | [] => none
  | c :: rest =>
    match rest with
    | c2 :: c3 :: c4 :: c5 :: _ =>
      if c.isDigit && c2.isDigit && c3.isDigit && c4.isDigit && c5 = '년' then
        some [c, c2, c3, c4]
      else findYear rest
    | _ => none

/-- Matching `\d+(?:\.\d+)?SQ` anchored at the start of `l`.  A greedy
digit run, an optional `.digits` part, then the literal `SQ`; the regex
backtracking never shortens the greedy runs here because the character
after a maximal digit run is not a digit. -/
def matchSizeAt (l : List Char) : Option (List Char) :=
  if (l.takeWhile (fun c => c.isDigit)).isEmpty then none
  else
    match l.dropWhile (fun c => c.isDigit) with
    | '.' :: r2 =>
      if (r2.takeWhile (fun c => c.isDigit)).isEmpty then none
      else
        match r2.dropWhile (fun c => c.isDigit) with
        | 'S' :: 'Q' :: _ =>
          some (l.takeWhile (fun c => c.isDigit) ++
            '.' :: (r2.takeWhile (fun c => c.isDigit) ++ ['S', 'Q']))
        | _ => none
    | 'S' :: 'Q' :: _ => some (l.takeWhile (fun c => c.isDigit) ++ ['S', 'Q'])
    | _ => none

/-- `re.search(r'(\d+(?:\.\d+)?SQ)', line)`: try `matchSizeAt` at every
start position, leftmost match wins. -/
def findSize : List Char → Option (List Char)
  | [] => none
  | c :: rest =>
    match matchSizeAt (c :: rest) with
    | some s => some s
    | none => findSize rest

/-- The greedy `(?:,\d{3})*` tail of the price pattern: repeatedly
consume a comma followed by exactly three digits. -/
def priceReps : List Char → List Char
  | c :: d1 :: d2 :: d3 :: rest =>
    if c = ',' && d1.isDigit && d2.isDigit && d3.isDigit then
      c :: d1 :: d2 :: d3 :: priceReps rest
    else []
  | _ => []

/-- Matching `\d{1,3}(?:,\d{3})*` anchored at the start of `l`:
`\d{1,3}` greedily takes at most three digits, then the comma groups. -/
def matchPriceAt : List Char → Option (List Char)
  | [] => none
  | c :: rest =>
    if c.isDigit then
      let ds3 := ((c :: rest).takeWhile (fun x => x.isDigit)).take 3
      some (ds3 ++ priceReps ((c :: rest).drop ds3.length))
    else none

/-- `re.search(r'(\d{1,3}(?:,\d{3})*)', line)`: leftmost match; the
pattern matches at the first position holding a digit. -/
def findPrice : List Char → Option (List Char)
  | [] => none
  | c :: rest =>
    match matchPriceAt (c :: rest) with
    | some p => some p
    | none => findPrice rest

/-- The value of a digit string, `int` on a string of digits. -/
def digitsVal (cs : List Char) : Nat :=
  cs.foldl (fun n c => 10 * n + (c.toNat - '0'.toNat)) 0

/-- Python `int(s)` for the strings arising here: succeeds exactly on a
non-empty string of decimal digits. -/
def intOfDigits (cs : List Char) : Option Nat :=
  if !cs.isEmpty && cs.all (fun c => c.isDigit) then some (digitsVal cs)
  else none

/-- The body of the extraction loop for one line: the three recognizers
in priority order (year, size, price, first match consumes the line);
on a price match with both state fields set, strip commas, convert with
`int`, and append the record only when the price is strictly positive.
`int(current_year)` is evaluated only when the record is appended,
matching the source's evaluation order. -/
def processLine (st : ScanState) (line : List Char) :
    Except String (ScanState × Option PriceRecord) :=
  match findYear line with
  | some y => .ok ({ st with current_year := some y }, none)
  | none =>
    match findSize line with
    | some s => .ok ({ st with current_size := some s }, none)
    | none =>
      match findPrice line with
      | none => .ok (st, none)
      | some p =>
        match st.current_year, st.current_size with
        | some ys, some ss =>
          match intOfDigits (p.filter (fun c => c ≠ ',')) with
          | none => .error "invalid literal for int"
          | some price =>
            if 0 < price then
              match intOfDigits ys with
              | none => .error "invalid literal for int"
              | some yv => .ok (st, some ⟨yv, String.mk ss, price⟩)
            else .ok (st, none)
        | some _, none => .ok (st, none)
        | none, some _ => .ok (st, none)
        | none, none => .ok (st, none)

/-- The extraction loop over all lines, threading the scanner state and
collecting the appended records in order. -/
def processLines (st : ScanState) : List (List Char) → Except String (List PriceRecord)
  | [] => .ok []
  | l :: ls =>
    match processLine st l with
    | .error e => .error e
    | .ok (st2, orec) =>
      match processLines st2 ls with
      | .error e => .error e
      | .ok rest => .ok (orec.toList ++ rest)

/-- `df.drop_duplicates()`: keep the first occurrence of each record,
preserving order (`seen` accumulates the records already kept). -/
def dropDupSeen (seen : List PriceRecord) : List PriceRecord → List PriceRecord
  | [] => []
  | r :: rest =>
    if seen.contains r then dropDupSeen seen rest
    else r :: dropDupSeen (r :: seen) rest

/-- `df.drop_duplicates()` on the whole frame. -/
def dropDuplicates (l : List PriceRecord) : List PriceRecord :=
  dropDupSeen [] l

/-- The `sort_values(['year', 'size'])` key order: year ascending
numerically, then size ascending as a string. -/
def keyLE (a b : PriceRecord) : Prop :=
  a.year < b.year ∨ (a.year = b.year ∧ a.size ≤ b.size)

instance : DecidableRel keyLE := fun a b =>
  inferInstanceAs (Decidable (a.year < b.year ∨ (a.year = b.year ∧ a.size ≤ b.size)))

instance : IsTotal PriceRecord keyLE where
  total a b := by
    rcases Nat.lt_trichotomy a.year b.year with h | h | h
    · exact Or.inl (Or.inl h)
    · rcases le_total a.size b.size with hs | hs
      · exact Or.inl (Or.inr ⟨h, hs⟩)
      · exact Or.inr (Or.inr ⟨h.symm, hs⟩)
    · exact Or.inr (Or.inl h)

instance : IsTrans PriceRecord keyLE where
  trans a b c hab hbc := by
    rcases hab with h1 | ⟨h1, h1s⟩ <;> rcases hbc with h2 | ⟨h2, h2s⟩
    · exact Or.inl (h1.trans h2)
    · exact Or.inl (h2 ▸ h1)
    · exact Or.inl (h1 ▸ h2)
    · exact Or.inr ⟨h1.trans h2, le_trans h1s h2s⟩

/-- The `sort_values('year')` key order used inside
`calculate_price_changes`. -/
def yearLE (a b : PriceRecord) : Prop :=
  a.year ≤ b.year

instance : DecidableRel yearLE := fun a b =>
  inferInstanceAs (Decidable (a.year ≤ b.year))

instance : IsTotal PriceRecord yearLE where
  total a b := Nat.le_total a.year b.year

instance : IsTrans PriceRecord yearLE where
  trans _ _ _ hab hbc := Nat.le_trans hab hbc

/-- `load_and_process_data`, from the `text` field onward: split into
lines, run the scanner, then `pd.DataFrame`, `drop_duplicates` and
`sort_values(['year', 'size'])`.  When no record was extracted the
DataFrame has no columns and `sort_values(['year', 'size'])` raises
`KeyError: 'year'`; we model that raise as an `Except.error`. -/
def load_and_process_data (text : String) : Except String (List PriceRecord) :=
  match processLines ⟨none, none⟩ (splitLines text.toList) with
  | .error e => .error e
  | .ok cable_data =>
    if cable_data.isEmpty then .error "KeyError: year"
    else .ok (List.insertionSort keyLE (dropDuplicates cable_data))

/-- The record-selection part of `calculate_price_changes`: restrict to
the size, `sort_values('year')`, and when `len(size_data) >= 2` and
`years_diff > 0` return the first and last row of the sorted frame. -/
def changeBasis (df : List PriceRecord) (sz : String) :
    Option (PriceRecord × PriceRecord) :=
  match List.insertionSort yearLE (df.filter (fun r => r.size == sz)) with
  | [] => none
  | r0 :: rest =>
    match rest.getLast? with
    | none => none
    | some r1 => if r0.year < r1.year then some (r0, r1) else none

/-- The two statistics of `calculate_price_changes` for a chosen first
and last row, with Python float arithmetic modelled as real arithmetic:
`total_change = ((final - initial) / initial) * 100` and
`avg_annual_change = ((final / initial) ** (1 / years_diff) - 1) * 100`. -/
noncomputable def statsPair (r0 r1 : PriceRecord) : ℝ × ℝ :=
  (((r1.price : ℝ) - (r0.price : ℝ)) / (r0.price : ℝ) * 100,
   (((r1.price : ℝ) / (r0.price : ℝ)) ^ ((1 : ℝ) / ((r1.year : ℝ) - (r0.year : ℝ))) - 1) * 100)

/-- `calculate_price_changes(df, size)`: `(None, None)` is modelled as
`none`, a computed pair of change percentages as `some`. -/
noncomputable def calculate_price_changes (df : List PriceRecord) (sz : String) :
    Option (ℝ × ℝ) :=
  (changeBasis df sz).map fun p => statsPair p.1 p.2

/-- The sidebar filtering step:
`df[(df['year'].isin(selected_years)) & (df['size'].isin(selected_sizes))]`. -/
def filter_records (df : List PriceRecord) (years : List Nat) (sizes : List String) :
    List PriceRecord :=
  df.filter (fun r => years.contains r.year && sizes.contains r.size)

/-- `filtered_df.pivot(index='size', columns='year', values='price')`:
pandas `DataFrame.pivot` raises a `ValueError` when two rows share the
same `(index, columns)` pair; otherwise the result holds one cell per
`(size, year)` pair present. -/
def pivot_df (df : List PriceRecord) :
    Except String (List (String × Nat × Nat)) :=
  if (df.map (fun r => (r.size, r.year))).Nodup then
    .ok (df.map (fun r => (r.size, r.year, r.price)))
  else .error "Index contains duplicate entries, cannot reshape"

/-- The cross-section token grammar of the spec: `<number>SQ` with the
number an integer or a decimal, i.e. digits, an optional point followed
by digits, and the literal `SQ`. -/
def isSizeToken (cs : List Char) : Bool :=
  !(cs.takeWhile (fun c => c.isDigit)).isEmpty &&
    (cs.dropWhile (fun c => c.isDigit) == ['S', 'Q'] ||
      ((cs.dropWhile (fun c => c.isDigit)).head? == some '.' &&
        (!((cs.dropWhile (fun c => c.isDigit)).tail.takeWhile (fun c => c.isDigit)).isEmpty &&
          (cs.dropWhile (fun c => c.isDigit)).tail.dropWhile (fun c => c.isDigit) == ['S', 'Q'])))

/-- The six-line round-trip input of the spec. -/
def sampleText : String := "2020년\n2.5SQ\n1,000\n2023년\n2.5SQ\n1,300"

/-- The span between the first and the last year of the chronologically
sorted records of one size (`0` when there is no record). -/
def yearSpan (df : List PriceRecord) (sz : String) : Nat :=
  ((List.insertionSort yearLE (df.filter (fun r => r.size == sz))).getLast?.map
      (fun r => r.year)).getD 0 -
    ((List.insertionSort yearLE (df.filter (fun r => r.size == sz))).head?.map
      (fun r => r.year)).getD 0

/-- Scanner-state invariant: whatever `current_size` holds was produced
by the size recognizer and hence matches the cross-section grammar. -/
def sizeOK (st : ScanState) : Prop :=
  ∀ ss, st.current_size = some ss → isSizeToken ss = true

theorem intOfDigits_eq_some (cs : List Char) (h1 : cs.isEmpty = false)
    (h2 : cs.all (fun c => c.isDigit) = true) :
    intOfDigits cs = some (digitsVal cs) := by
  unfold intOfDigits
  rw [h1, h2]
  rfl

theorem priceReps_mem : ∀ (l : List Char), ∀ c ∈ priceReps l, c = ',' ∨ c.isDigit = true := by
  intro l
  induction l using priceReps.induct with
  | case1 c0 d1 d2 d3 rest h ih =>
    intro c hc
    rw [priceReps, if_pos h] at hc
    simp only [Bool.and_eq_true, decide_eq_true_eq] at h
    simp only [List.mem_cons] at hc
    rcases hc with h1 | h1 | h1 | h1 | h1
    · subst h1; exact Or.inl h.1.1.1
    · subst h1; exact Or.inr h.1.1.2
    · subst h1; exact Or.inr h.1.2
    · subst h1; exact Or.inr h.2
    · exact ih c h1
  | case2 c0 d1 d2 d3 rest h =>
    intro c hc
    rw [priceReps, if_neg h] at hc
    cases hc
  | case3 l h =>
    intro c hc
    rw [priceReps] at hc
    · cases hc
    · exact h

theorem priceReps_ne_comma (c : Char) (rest : List Char) (h : c ≠ ',') :
    priceReps (c :: rest) = [] := by
  rcases rest with _ | ⟨d1, _ | ⟨d2, _ | ⟨d3, t⟩⟩⟩
  · rfl
  · rfl
  · rfl
  · rw [priceReps, if_neg]
    simp only [Bool.and_eq_true, decide_eq_true_eq]
    intro hh
    exact h hh.1.1.1

theorem matchPriceAt_digits :
    ∀ (l p : List Char), matchPriceAt l = some p →
      (p.filter (fun c => c ≠ ',')).isEmpty = false ∧
      (p.filter (fun c => c ≠ ',')).all (fun c => c.isDigit) = true := by
  intro l p h
  match l with
  | [] => exact absurd h (by simp [matchPriceAt])
  | c :: rest =>
    simp only [matchPriceAt] at h
    by_cases hc : c.isDigit = true
    case pos =>
      rw [if_pos hc] at h
      injection h with hp
      have hmem : ∀ x ∈ p.filter (fun c => c ≠ ','), x.isDigit = true := by
        intro x hx
        rw [List.mem_filter] at hx
        obtain ⟨hxp, hxne⟩ := hx
        rw [← hp] at hxp
        rcases List.mem_append.1 hxp with h1 | h1
        · exact List.mem_takeWhile_imp (List.mem_of_mem_take h1)
        · rcases priceReps_mem _ x h1 with h2 | h2
          · rw [decide_eq_true_eq] at hxne; exact absurd h2 hxne
          · exact h2
      have hcp : c ∈ p.filter (fun c => c ≠ ',') := by
        rw [List.mem_filter]
        constructor
        · rw [← hp]
          apply List.mem_append_left
          rw [List.takeWhile_cons_of_pos hc]
          exact List.mem_cons_self c _
        · rw [decide_eq_true_eq]
          intro hcc
          rw [hcc] at hc
          exact absurd hc (by decide)
      constructor
      · cases hf : p.filter (fun c => c ≠ ',') with
        | nil => rw [hf] at hcp; cases hcp
        | cons a t => rfl
      · rw [List.all_eq_true]
        exact hmem
    case neg =>
      rw [if_neg hc] at h
      cases h

theorem findPrice_digits (l : List Char) :
    ∀ (p : List Char), findPrice l = some p →
      (p.filter (fun c => c ≠ ',')).isEmpty = false ∧
      (p.filter (fun c => c ≠ ',')).all (fun c => c.isDigit) = true := by
  induction l with
  | nil => intro p h; cases h
  | cons c rest ih =>
    intro p h
    unfold findPrice at h
    cases hm : matchPriceAt (c :: rest) with
    | some q =>
      rw [hm] at h
      injection h with h'
      subst h'
      exact matchPriceAt_digits _ _ hm
    | none =>
      rw [hm] at h
      exact ih p h

theorem findYear_digits (l : List Char) :
    ∀ (y : List Char), findYear l = some y →
      y.isEmpty = false ∧ y.all (fun c => c.isDigit) = true := by
  induction l with
  | nil => intro y h; cases h
  | cons c rest ih =>
    intro y h
    rcases rest with _ | ⟨c2, _ | ⟨c3, _ | ⟨c4, _ | ⟨c5, rest5⟩⟩⟩⟩
    · cases h
    · cases h
    · cases h
    · cases h
    · simp only [findYear] at h
      split at h
      case isTrue hcond =>
        injection h with h'
        subst h'
        simp only [Bool.and_eq_true, decide_eq_true_eq] at hcond
        refine ⟨rfl, ?_⟩
        simp only [List.all_cons, List.all_nil, Bool.and_eq_true]
        exact ⟨hcond.1.1.1.1, hcond.1.1.1.2, hcond.1.1.2, hcond.1.2, trivial⟩
      case isFalse hcond => exact ih y h

theorem takeWhile_append_of_all (p : Char → Bool) (l r : List Char)
    (hl : ∀ x ∈ l, p x = true) :
    (l ++ r).takeWhile p = l ++ r.takeWhile p := by
  induction l with
  | nil => simp
  | cons a t ih =>
    rw [List.cons_append, List.takeWhile_cons_of_pos (hl a (List.mem_cons_self a t))]
    rw [ih (fun x hx => hl x (List.mem_cons_of_mem a hx))]
    rfl

theorem dropWhile_append_of_all (p : Char → Bool) (l r : List Char)
    (hl : ∀ x ∈ l, p x = true) :
    (l ++ r).dropWhile p = r.dropWhile p := by
  induction l with
  | nil => simp
  | cons a t ih =>
    rw [List.cons_append, List.dropWhile_cons_of_pos (hl a (List.mem_cons_self a t))]
    exact ih (fun x hx => hl x (List.mem_cons_of_mem a hx))

theorem isSizeToken_int (ds : List Char) (hne : ds ≠ [])
    (hd : ∀ x ∈ ds, x.isDigit = true) :
    isSizeToken (ds ++ ['S', 'Q']) = true := by
  have h1 : (ds ++ ['S', 'Q']).takeWhile (fun c => c.isDigit) = ds := by
    rw [takeWhile_append_of_all _ _ _ hd, List.takeWhile_cons_of_neg (by decide)]
    simp
  have h2 : (ds ++ ['S', 'Q']).dropWhile (fun c => c.isDigit) = ['S', 'Q'] := by
    rw [dropWhile_append_of_all _ _ _ hd, List.dropWhile_cons_of_neg (by decide)]
  unfold isSizeToken
  rw [h1, h2]
  simp [hne]

theorem isSizeToken_dec (ds es : List Char) (hne : ds ≠ [])
    (hd : ∀ x ∈ ds, x.isDigit = true) (hene : es ≠ [])
    (hed : ∀ x ∈ es, x.isDigit = true) :
    isSizeToken (ds ++ '.' :: (es ++ ['S', 'Q'])) = true := by
  have h1 : (ds ++ '.' :: (es ++ ['S', 'Q'])).takeWhile (fun c => c.isDigit) = ds := by
    rw [takeWhile_append_of_all _ _ _ hd, List.takeWhile_cons_of_neg (by decide)]
    simp
  have h2 : (ds ++ '.' :: (es ++ ['S', 'Q'])).dropWhile (fun c => c.isDigit) =
      '.' :: (es ++ ['S', 'Q']) := by
    rw [dropWhile_append_of_all _ _ _ hd, List.dropWhile_cons_of_neg (by decide)]
  have h3 : (es ++ ['S', 'Q']).takeWhile (fun c => c.isDigit) = es := by
    rw [takeWhile_append_of_all _ _ _ hed, List.takeWhile_cons_of_neg (by decide)]
    simp
  have h4 : (es ++ ['S', 'Q']).dropWhile (fun c => c.isDigit) = ['S', 'Q'] := by
    rw [dropWhile_append_of_all _ _ _ hed, List.dropWhile_cons_of_neg (by decide)]
  unfold isSizeToken
  rw [h1, h2]
  simp only [List.head?_cons, List.tail_cons, h3, h4]
  simp [hne, hene]

theorem matchSizeAt_token (l s : List Char) (h : matchSizeAt l = some s) :
    isSizeToken s = true := by
  unfold matchSizeAt at h
  by_cases h0 : (l.takeWhile (fun c => c.isDigit)).isEmpty = true
  · rw [if_pos h0] at h
    cases h
  · rw [if_neg h0] at h
    have hd : ∀ x ∈ l.takeWhile (fun c => c.isDigit), x.isDigit = true :=
      fun x hx => List.mem_takeWhile_imp hx
    have hne' : l.takeWhile (fun c => c.isDigit) ≠ [] := by
      intro hnil
      rw [hnil] at h0
      exact h0 rfl
    split at h
    · rename_i r2 heq
      by_cases he0 : (r2.takeWhile (fun c => c.isDigit)).isEmpty = true
      · rw [if_pos he0] at h
        cases h
      · rw [if_neg he0] at h
        have hed : ∀ x ∈ r2.takeWhile (fun c => c.isDigit), x.isDigit = true :=
          fun x hx => List.mem_takeWhile_imp hx
        have hene' : r2.takeWhile (fun c => c.isDigit) ≠ [] := by
          intro hnil
          rw [hnil] at he0
          exact he0 rfl
        split at h
        · injection h with h'
          subst h'
          exact isSizeToken_dec _ _ hne' hd hene' hed
        · cases h
    · injection h with h'
      subst h'
      exact isSizeToken_int _ hne' hd
    · cases h

theorem findSize_token (l : List Char) :
    ∀ (s : List Char), findSize l = some s → isSizeToken s = true := by
  induction l with
  | nil => intro s h; cases h
  | cons c rest ih =>
    intro s h
    unfold findSize at h
    cases hm : matchSizeAt (c :: rest) with
    | some q =>
      rw [hm] at h
      injection h with h'
      subst h'
      exact matchSizeAt_token _ _ hm
    | none =>
      rw [hm] at h
      exact ih s h

theorem processLine_year (st : ScanState) (line y : List Char)
    (hy : findYear line = some y) :
    processLine st line = .ok ({ st with current_year := some y }, none) := by
  simp only [processLine, hy]

theorem processLine_size (st : ScanState) (line s : List Char)
    (hy : findYear line = none) (hs : findSize line = some s) :
    processLine st line = .ok ({ st with current_size := some s }, none) := by
  simp only [processLine, hy, hs]

theorem processLine_nomatch (st : ScanState) (line : List Char)
    (hy : findYear line = none) (hs : findSize line = none)
    (hp : findPrice line = none) :
    processLine st line = .ok (st, none) := by
  simp only [processLine, hy, hs, hp]

theorem processLine_price_missing (st : ScanState) (line p : List Char)
    (hy : findYear line = none) (hs : findSize line = none)
    (hp : findPrice line = some p)
    (hmiss : st.current_year = none ∨ st.current_size = none) :
    processLine st line = .ok (st, none) := by
  simp only [processLine, hy, hs, hp]
  rcases hmiss with h | h
  · rw [h]
    cases st.current_size <;> rfl
  · rw [h]
    cases st.current_year <;> rfl

theorem processLine_price (st : ScanState) (line p ys ss : List Char) (yv : Nat)
    (hys : st.current_year = some ys) (hss : st.current_size = some ss)
    (hyv : intOfDigits ys = some yv)
    (hy : findYear line = none) (hs : findSize line = none)
    (hp : findPrice line = some p) :
    processLine st line =
      .ok (st,
        if 0 < digitsVal (p.filter (fun c => c ≠ ',')) then
          some ⟨yv, String.mk ss, digitsVal (p.filter (fun c => c ≠ ','))⟩
        else none) := by
  have hpd := findPrice_digits line p hp
  simp only [processLine, hy, hs, hp, hys, hss,
    intOfDigits_eq_some _ hpd.1 hpd.2, hyv]
  split <;> rfl

theorem findYear_none_of_digits (l : List Char) (hd : ∀ x ∈ l, x.isDigit = true) :
    findYear l = none := by
  induction l with
  | nil => rfl
  | cons c rest ih =>
    rcases rest with _ | ⟨c2, _ | ⟨c3, _ | ⟨c4, _ | ⟨c5, rest5⟩⟩⟩⟩
    · rfl
    · rfl
    · rfl
    · rfl
    · have h5 : c5.isDigit = true := hd c5 (by simp)
      have hne : decide (c5 = '년') = false := by
        rw [decide_eq_false_iff_not]
        intro heq
        rw [heq] at h5
        exact absurd h5 (by decide)
      simp only [findYear, hne, Bool.and_false, Bool.false_eq_true, if_false]
      exact ih (fun x hx => hd x (List.mem_cons_of_mem _ hx))

theorem matchSizeAt_none_of_digits (l : List Char) (hd : ∀ x ∈ l, x.isDigit = true) :
    matchSizeAt l = none := by
  have h1 : l.dropWhile (fun c => c.isDigit) = [] :=
    List.dropWhile_eq_nil_iff.mpr (fun x hx => hd x hx)
  unfold matchSizeAt
  rw [h1]
  split <;> rfl

theorem findSize_none_of_digits (l : List Char) (hd : ∀ x ∈ l, x.isDigit = true) :
    findSize l = none := by
  induction l with
  | nil => rfl
  | cons c rest ih =>
    simp only [findSize, matchSizeAt_none_of_digits _ hd]
    exact ih (fun x hx => hd x (List.mem_cons_of_mem _ hx))

theorem findPrice_digit_run (l : List Char) (hd : ∀ x ∈ l, x.isDigit = true)
    (hlen : 4 ≤ l.length) :
    findPrice l = some (l.take 3) := by
  cases l with
  | nil => simp at hlen
  | cons c rest =>
    have hc : c.isDigit = true := hd c (List.mem_cons_self c rest)
    have htw : (c :: rest).takeWhile (fun x => x.isDigit) = c :: rest :=
      List.takeWhile_eq_self_iff.mpr (fun x hx => hd x hx)
    have hlen3 : ((c :: rest).take 3).length = 3 := by
      rw [List.length_take]
      omega
    have hrep : priceReps (rest.drop 2) = [] := by
      cases hdrop : rest.drop 2 with
      | nil => rfl
      | cons d t =>
        apply priceReps_ne_comma
        have hdl : d ∈ rest := List.mem_of_mem_drop (hdrop ▸ List.mem_cons_self d t)
        have hdig : d.isDigit = true := hd d (List.mem_cons_of_mem c hdl)
        intro hh
        rw [hh] at hdig
        exact absurd hdig (by decide)
    have hmin : 2 ⊓ rest.length = 2 := by
      have h3 : 3 ≤ rest.length := by
        simp only [List.length_cons] at hlen
        omega
      omega
    simp [findPrice, matchPriceAt, hc, htw, hlen3, hmin, hrep]

/-- C1: running the extractor on the six-line sample text yields exactly
the records `{2020, "2.5SQ", 1000}` and `{2023, "2.5SQ", 1300}`, and the
change statistics of that record set for size `"2.5SQ"` are
`totalChangePct = 30` and `avgAnnualChangePct = ((13/10)^(1/3) - 1) * 100`
(≈ 9.139). -/
theorem c1_roundtrip :
    load_and_process_data sampleText =
      .ok [⟨2020, "2.5SQ", 1000⟩, ⟨2023, "2.5SQ", 1300⟩] ∧
    calculate_price_changes [⟨2020, "2.5SQ", 1000⟩, ⟨2023, "2.5SQ", 1300⟩] "2.5SQ" =
      some (30, ((13 / 10 : ℝ) ^ ((1 : ℝ) / 3) - 1) * 100) := by
  constructor
  · decide
  · have hb : changeBasis [⟨2020, "2.5SQ", 1000⟩, ⟨2023, "2.5SQ", 1300⟩] "2.5SQ" =
        some (⟨2020, "2.5SQ", 1000⟩, ⟨2023, "2.5SQ", 1300⟩) := by decide
    unfold calculate_price_changes
    rw [hb]
    simp only [Option.map_some']
    unfold statsPair
    norm_num

/-- C4 (evidence for a code bug): on the empty input the loader produces
no records, so the DataFrame has no `year`/`size` columns and
`sort_values(['year', 'size'])` raises a `KeyError` instead of returning
an empty RecordSet as the spec requires. -/
theorem c4_extract_empty_input_raises :
    load_and_process_data "" = .error "KeyError: year" := by decide

/-- C5 counterexample: two records colliding on the same (size, year)
cell with different prices make `pivot` raise the pandas duplicate-index
error; no PricePivot is returned, contradicting the claimed aggregation. -/
theorem c5_pivot_collision_counterexample :
    pivot_df [⟨2020, "2.5SQ", 1000⟩, ⟨2020, "2.5SQ", 1200⟩] =
      .error "Index contains duplicate entries, cannot reshape" := by decide

/-- C5 amended: when two distinct records of the record set collide on
the same (size, year) cell, `pivot` deterministically fails with the
duplicate-index error rather than aggregating to one cell. -/
theorem c5_pivot_collision_error (df : List PriceRecord) (a b : PriceRecord)
    (ha : a ∈ df) (hb : b ∈ df) (hne : a ≠ b)
    (hsz : a.size = b.size) (hyr : a.year = b.year) :
    pivot_df df = .error "Index contains duplicate entries, cannot reshape" := by
  have hnd : ¬ (df.map (fun r => (r.size, r.year))).Nodup := by
    intro hnd
    exact hne (List.inj_on_of_nodup_map hnd ha hb (by rw [hsz, hyr]))
  unfold pivot_df
  rw [if_neg hnd]

theorem c5_pivot_collision_error_witness :
    pivot_df [⟨2020, "2.5SQ", 1000⟩, ⟨2020, "2.5SQ", 1200⟩, ⟨2021, "4SQ", 500⟩] =
      .error "Index contains duplicate entries, cannot reshape" :=
  c5_pivot_collision_error
    [⟨2020, "2.5SQ", 1000⟩, ⟨2020, "2.5SQ", 1200⟩, ⟨2021, "4SQ", 500⟩]
    ⟨2020, "2.5SQ", 1000⟩ ⟨2020, "2.5SQ", 1200⟩
    (by decide) (by decide) (by decide) rfl rfl

/-- C6: on a line where the year and size recognizers fail and the price
pattern matches `p`, with both `currentYear` and `currentSize` set, the
scanner strips the grouping commas from `p`, parses the digits as an
integer, and appends the record `{currentYear, currentSize, value}` if
and only if the parsed value is strictly positive. -/
theorem c6_price_recognizer (st : ScanState) (line p ys ss : List Char) (yv : Nat)
    (hys : st.current_year = some ys) (hss : st.current_size = some ss)
    (hyv : intOfDigits ys = some yv)
    (hy : findYear line = none) (hs : findSize line = none)
    (hp : findPrice line = some p) :
    processLine st line =
      .ok (st,
        if 0 < digitsVal (p.filter (fun c => c ≠ ',')) then
          some ⟨yv, String.mk ss, digitsVal (p.filter (fun c => c ≠ ','))⟩
        else none) :=
  processLine_price st line p ys ss yv hys hss hyv hy hs hp

theorem c6_price_recognizer_witness :
    processLine ⟨some ['2', '0', '2', '0'], some ['2', '.', '5', 'S', 'Q']⟩
        ['1', ',', '0', '0', '0'] =
      .ok (⟨some ['2', '0', '2', '0'], some ['2', '.', '5', 'S', 'Q']⟩,
        if 0 < digitsVal (['1', ',', '0', '0', '0'].filter (fun c => c ≠ ',')) then
          some ⟨2020, String.mk ['2', '.', '5', 'S', 'Q'],
            digitsVal (['1', ',', '0', '0', '0'].filter (fun c => c ≠ ','))⟩
        else none) :=
  c6_price_recognizer ⟨some ['2', '0', '2', '0'], some ['2', '.', '5', 'S', 'Q']⟩
    ['1', ',', '0', '0', '0'] ['1', ',', '0', '0', '0'] ['2', '0', '2', '0']
    ['2', '.', '5', 'S', 'Q'] 2020 rfl rfl (by decide) (by decide) (by decide) (by decide)

/-- C7: the selection filter returns exactly the subsequence of records
whose year is among the selected years and whose size is among the
selected sizes, preserving the original order; an empty year selection or
an empty size selection yields the empty result, not a select-all. -/
theorem c7_filter_subsequence (df : List PriceRecord) (years : List Nat)
    (sizes : List String) :
    filter_records df years sizes =
      df.filter (fun r => decide (r.year ∈ years ∧ r.size ∈ sizes)) ∧
    (filter_records df years sizes).Sublist df ∧
    filter_records df [] sizes = [] ∧
    filter_records df years [] = [] := by
  refine ⟨?_, List.filter_sublist df, ?_, ?_⟩
  · unfold filter_records
    apply List.filter_congr
    intro x _
    simp [List.contains, List.elem_eq_mem]
  · simp [filter_records, List.contains]
  · simp [filter_records, List.contains]

/-- C10 counterexample: the line `0005` is a pure digit run of length at
least four processed with both state fields set, but no record is
appended at all (the first three digits `000` parse to `0`, which the
positivity check drops), while the claim demands a record with price `0`.
In a longer run the later valid price line still produces its record. -/
theorem c10_truncation_counterexample :
    load_and_process_data "2020년\n2.5SQ\n0005\n1,000" = .ok [⟨2020, "2.5SQ", 1000⟩] ∧
    processLine ⟨some ['2', '0', '2', '0'], some ['2', '.', '5', 'S', 'Q']⟩
        ['0', '0', '0', '5'] =
      .ok (⟨some ['2', '0', '2', '0'], some ['2', '.', '5', 'S', 'Q']⟩, none) ∧
    processLine ⟨some ['2', '0', '2', '0'], some ['2', '.', '5', 'S', 'Q']⟩
        ['0', '0', '0', '5'] ≠
      .ok (⟨some ['2', '0', '2', '0'], some ['2', '.', '5', 'S', 'Q']⟩,
        some ⟨2020, "2.5SQ", 0⟩) := by
  refine ⟨by decide, by decide, by decide⟩

/-- C10 amended: on a line consisting solely of an ungrouped run of four
or more digits, processed while both `currentYear` and `currentSize` are
set, the scanner matches only the first three digits; it appends a record
whose price is the integer formed by those three digits when that integer
is strictly positive, and appends nothing otherwise. -/
theorem c10_truncated_digit_run (st : ScanState) (line ys ss : List Char) (yv : Nat)
    (hys : st.current_year = some ys) (hss : st.current_size = some ss)
    (hyv : intOfDigits ys = some yv)
    (hd : ∀ x ∈ line, x.isDigit = true) (hlen : 4 ≤ line.length) :
    processLine st line =
      .ok (st,
        if 0 < digitsVal (line.take 3) then
          some ⟨yv, String.mk ss, digitsVal (line.take 3)⟩
        else none) := by
  have hfy := findYear_none_of_digits line hd
  have hfs := findSize_none_of_digits line hd
  have hfp := findPrice_digit_run line hd hlen
  have hfilt : (line.take 3).filter (fun c => c ≠ ',') = line.take 3 := by
    apply List.filter_eq_self.mpr
    intro x hx
    rw [decide_eq_true_eq]
    have hdig : x.isDigit = true := hd x (List.mem_of_mem_take hx)
    intro hh
    rw [hh] at hdig
    exact absurd hdig (by decide)
  have h := processLine_price st line (line.take 3) ys ss yv hys hss hyv hfy hfs hfp
  rw [hfilt] at h
  exact h

theorem c10_truncated_digit_run_witness :
    processLine ⟨some ['2', '0', '2', '0'], some ['2', '.', '5', 'S', 'Q']⟩
        ['1', '2', '3', '4'] =
      .ok (⟨some ['2', '0', '2', '0'], some ['2', '.', '5', 'S', 'Q']⟩,
        if 0 < digitsVal (['1', '2', '3', '4'].take 3) then
          some ⟨2020, String.mk ['2', '.', '5', 'S', 'Q'],
            digitsVal (['1', '2', '3', '4'].take 3)⟩
        else none) :=
  c10_truncated_digit_run ⟨some ['2', '0', '2', '0'], some ['2', '.', '5', 'S', 'Q']⟩
    ['1', '2', '3', '4'] ['2', '0', '2', '0'] ['2', '.', '5', 'S', 'Q'] 2020
    rfl rfl (by decide) (by decide) (by decide)

theorem sorted_head_year_le {r0 : PriceRecord} {rest : List PriceRecord}
    (hs : List.Sorted yearLE (r0 :: rest)) : ∀ x ∈ r0 :: rest, r0.year ≤ x.year := by
  intro x hx
  rcases List.mem_cons.1 hx with h | h
  · subst h
    exact le_refl _
  · exact List.rel_of_sorted_cons hs x h

theorem sorted_year_le_getLast : ∀ (l : List PriceRecord) (h : l ≠ []),
    List.Sorted yearLE l → ∀ x ∈ l, x.year ≤ (l.getLast h).year := by
  intro l
  induction l with
  | nil => intro h; exact absurd rfl h
  | cons a t ih =>
    intro h hs x hx
    cases t with
    | nil =>
      rcases List.mem_cons.1 hx with h1 | h1
      · subst h1; exact le_refl _
      · cases h1
    | cons b t2 =>
      have hne : b :: t2 ≠ [] := List.cons_ne_nil b t2
      rw [List.getLast_cons hne]
      rcases List.mem_cons.1 hx with h1 | h1
      · subst h1
        exact List.rel_of_sorted_cons hs _ (List.getLast_mem hne)
      · exact ih hne hs.of_cons x h1

theorem two_le_length_of_mem_ne {α : Type _} {l : List α} {a b : α}
    (ha : a ∈ l) (hb : b ∈ l) (hne : a ≠ b) : 2 ≤ l.length := by
  cases l with
  | nil => cases ha
  | cons x t =>
    cases t with
    | nil =>
      have h1 : a = x := List.mem_singleton.1 ha
      have h2 : b = x := List.mem_singleton.1 hb
      exact absurd (h1.trans h2.symm) hne
    | cons y t2 =>
      simp only [List.length_cons]
      omega

theorem two_le_dedup_of_mem_ne {α : Type _} [DecidableEq α] {l : List α} {a b : α}
    (ha : a ∈ l) (hb : b ∈ l) (hne : a ≠ b) : 2 ≤ l.dedup.length :=
  two_le_length_of_mem_ne (List.mem_dedup.2 ha) (List.mem_dedup.2 hb) hne

theorem dedup_length_le_one_of_const {α : Type _} [DecidableEq α] {l : List α} {c : α}
    (h : ∀ x ∈ l, x = c) : l.dedup.length ≤ 1 := by
  cases hd : l.dedup with
  | nil => simp
  | cons a t =>
    cases t with
    | nil => simp
    | cons b t2 =>
      exfalso
      have hnd := List.nodup_dedup l
      rw [hd] at hnd
      have hab : a ≠ b := by
        intro hab
        rw [List.nodup_cons] at hnd
        exact hnd.1 (hab ▸ List.mem_cons_self b t2)
      have ha : a ∈ l := by
        apply List.mem_dedup.1
        rw [hd]
        exact List.mem_cons_self a (b :: t2)
      have hb : b ∈ l := by
        apply List.mem_dedup.1
        rw [hd]
        exact List.mem_cons_of_mem a (List.mem_cons_self b t2)
      exact hab ((h a ha).trans (h b hb).symm)

/-- C2: whenever at least two distinct years occur among the records of
a size, `calculate_price_changes` returns
`totalChangePct = (p1 - p0) / p0 * 100` and
`avgAnnualChangePct = ((p1 / p0) ^ (1 / Δyears) - 1) * 100`, with `p0`
the price of an earliest-year record `r0` for that size, `p1` the price
of a latest-year record `r1`, and `Δyears = r1.year - r0.year > 0`. -/
theorem c2_change_stats_formula (df : List PriceRecord) (sz : String)
    (h2 : 2 ≤ (((df.filter (fun r => r.size == sz)).map (fun r => r.year)).dedup).length) :
    ∃ r0 r1 : PriceRecord,
      r0 ∈ df.filter (fun r => r.size == sz) ∧
      r1 ∈ df.filter (fun r => r.size == sz) ∧
      (∀ x ∈ df.filter (fun r => r.size == sz), r0.year ≤ x.year) ∧
      (∀ x ∈ df.filter (fun r => r.size == sz), x.year ≤ r1.year) ∧
      r0.year < r1.year ∧
      calculate_price_changes df sz =
        some (((r1.price : ℝ) - (r0.price : ℝ)) / (r0.price : ℝ) * 100,
          (((r1.price : ℝ) / (r0.price : ℝ)) ^
              ((1 : ℝ) / ((r1.year : ℝ) - (r0.year : ℝ))) - 1) * 100) := by
  set recs := df.filter (fun r => r.size == sz) with hrecs
  have hperm : List.Perm (List.insertionSort yearLE recs) recs :=
    List.perm_insertionSort yearLE recs
  have hsort : List.Sorted yearLE (List.insertionSort yearLE recs) :=
    List.sorted_insertionSort yearLE recs
  have hlen2 : 2 ≤ recs.length := by
    have h1 : ((recs.map (fun r => r.year)).dedup).length ≤
        (recs.map (fun r => r.year)).length :=
      (List.dedup_sublist _).length_le
    rw [List.length_map] at h1
    omega
  have hslen : (List.insertionSort yearLE recs).length = recs.length := hperm.length_eq
  obtain ⟨r0, rest, hsl⟩ : ∃ r0 rest, List.insertionSort yearLE recs = r0 :: rest := by
    cases hs0 : List.insertionSort yearLE recs with
    | nil =>
      rw [hs0] at hslen
      simp at hslen
      omega
    | cons a t => exact ⟨a, t, rfl⟩
  have hrestne : rest ≠ [] := by
    intro h0
    rw [h0] at hsl
    rw [hsl] at hslen
    simp at hslen
    omega
  set r1 := rest.getLast hrestne with hr1
  have hlast : (r0 :: rest).getLast (List.cons_ne_nil r0 rest) = r1 := by
    rw [List.getLast_cons hrestne]
  have hsort' : List.Sorted yearLE (r0 :: rest) := hsl ▸ hsort
  have hr0mem : r0 ∈ recs := by
    apply hperm.mem_iff.1
    rw [hsl]
    exact List.mem_cons_self r0 rest
  have hr1mem : r1 ∈ recs := by
    apply hperm.mem_iff.1
    rw [hsl]
    exact List.mem_cons_of_mem r0 (hr1 ▸ List.getLast_mem hrestne)
  have hmin : ∀ x ∈ recs, r0.year ≤ x.year := by
    intro x hx
    exact sorted_head_year_le hsort' x (hsl ▸ hperm.mem_iff.2 hx)
  have hmax : ∀ x ∈ recs, x.year ≤ r1.year := by
    intro x hx
    have h := sorted_year_le_getLast (r0 :: rest) (List.cons_ne_nil r0 rest) hsort' x
      (hsl ▸ hperm.mem_iff.2 hx)
    rw [hlast] at h
    exact h
  have hlt : r0.year < r1.year := by
    by_contra hnot
    push_neg at hnot
    have hall : ∀ y ∈ recs.map (fun r => r.year), y = r0.year := by
      intro y hy
      obtain ⟨x, hx, hxy⟩ := List.mem_map.1 hy
      have hx1 := hmin x hx
      have hx2 := hmax x hx
      omega
    have hone := dedup_length_le_one_of_const hall
    omega
  have hcb : changeBasis df sz = some (r0, r1) := by
    simp only [changeBasis, ← hrecs, hsl, List.getLast?_eq_getLast_of_ne_nil hrestne,
      ← hr1, if_pos hlt]
  refine ⟨r0, r1, hr0mem, hr1mem, hmin, hmax, hlt, ?_⟩
  unfold calculate_price_changes
  rw [hcb]
  simp only [Option.map_some']
  rfl

theorem c2_change_stats_formula_witness :
    ∃ r0 r1 : PriceRecord,
      r0 ∈ ([⟨2020, "2.5SQ", 1000⟩, ⟨2023, "2.5SQ", 1300⟩] : List PriceRecord).filter
        (fun r => r.size == "2.5SQ") ∧
      r1 ∈ ([⟨2020, "2.5SQ", 1000⟩, ⟨2023, "2.5SQ", 1300⟩] : List PriceRecord).filter
        (fun r => r.size == "2.5SQ") ∧
      (∀ x ∈ ([⟨2020, "2.5SQ", 1000⟩, ⟨2023, "2.5SQ", 1300⟩] : List PriceRecord).filter
        (fun r => r.size == "2.5SQ"), r0.year ≤ x.year) ∧
      (∀ x ∈ ([⟨2020, "2.5SQ", 1000⟩, ⟨2023, "2.5SQ", 1300⟩] : List PriceRecord).filter
        (fun r => r.size == "2.5SQ"), x.year ≤ r1.year) ∧
      r0.year < r1.year ∧
      calculate_price_changes [⟨2020, "2.5SQ", 1000⟩, ⟨2023, "2.5SQ", 1300⟩] "2.5SQ" =
        some (((r1.price : ℝ) - (r0.price : ℝ)) / (r0.price : ℝ) * 100,
          (((r1.price : ℝ) / (r0.price : ℝ)) ^
              ((1 : ℝ) / ((r1.year : ℝ) - (r0.year : ℝ))) - 1) * 100) :=
  c2_change_stats_formula [⟨2020, "2.5SQ", 1000⟩, ⟨2023, "2.5SQ", 1300⟩] "2.5SQ" (by decide)

/-- C3: the change statistics are absent exactly when fewer than two
distinct years occur among the records of the size, or the span between
the first and last year is zero; this is the `(None, None)` value of the
source, a normal outcome rather than an exception. -/
theorem c3_change_stats_absent_iff (df : List PriceRecord) (sz : String) :
    calculate_price_changes df sz = none ↔
      ((((df.filter (fun r => r.size == sz)).map (fun r => r.year)).dedup).length < 2 ∨
        yearSpan df sz = 0) := by
  unfold calculate_price_changes
  rw [Option.map_eq_none']
  set recs := df.filter (fun r => r.size == sz) with hrecs
  have hperm : List.Perm (List.insertionSort yearLE recs) recs :=
    List.perm_insertionSort yearLE recs
  have hsort : List.Sorted yearLE (List.insertionSort yearLE recs) :=
    List.sorted_insertionSort yearLE recs
  have hslen : (List.insertionSort yearLE recs).length = recs.length := hperm.length_eq
  have hdle : ((recs.map (fun r => r.year)).dedup).length ≤ recs.length := by
    have h1 := (List.dedup_sublist (recs.map (fun r => r.year))).length_le
    rw [List.length_map] at h1
    exact h1
  cases hs0 : List.insertionSort yearLE recs with
  | nil =>
    have hlen0 : recs.length = 0 := by
      rw [hs0] at hslen
      simpa using hslen.symm
    have hcb : changeBasis df sz = none := by
      simp only [changeBasis, ← hrecs, hs0]
    rw [hcb]
    simp only [true_iff, eq_self_iff_true]
    left
    omega
  | cons r0 rest =>
    cases rest with
    | nil =>
      have hlen1 : recs.length = 1 := by
        rw [hs0] at hslen
        simpa using hslen.symm
      have hcb : changeBasis df sz = none := by
        simp only [changeBasis, ← hrecs, hs0, List.getLast?_nil]
      rw [hcb]
      simp only [true_iff, eq_self_iff_true]
      left
      omega
    | cons b t =>
      have hrestne : b :: t ≠ [] := List.cons_ne_nil b t
      set r1 := (b :: t).getLast hrestne with hr1
      have hsort' : List.Sorted yearLE (r0 :: b :: t) := hs0 ▸ hsort
      have hlast : (r0 :: b :: t).getLast (List.cons_ne_nil r0 (b :: t)) = r1 := by
        rw [List.getLast_cons hrestne]
      have hr0mem : r0 ∈ recs := by
        apply hperm.mem_iff.1
        rw [hs0]
        exact List.mem_cons_self r0 (b :: t)
      have hr1mem : r1 ∈ recs := by
        apply hperm.mem_iff.1
        rw [hs0]
        exact List.mem_cons_of_mem r0 (hr1 ▸ List.getLast_mem hrestne)
      have hmin : ∀ x ∈ recs, r0.year ≤ x.year := by
        intro x hx
        exact sorted_head_year_le hsort' x (hs0 ▸ hperm.mem_iff.2 hx)
      have hmax : ∀ x ∈ recs, x.year ≤ r1.year := by
        intro x hx
        have h := sorted_year_le_getLast (r0 :: b :: t) (List.cons_ne_nil r0 (b :: t))
          hsort' x (hs0 ▸ hperm.mem_iff.2 hx)
        rw [hlast] at h
        exact h
      have hle : r0.year ≤ r1.year := hmin r1 hr1mem
      have hcb : changeBasis df sz =
          if r0.year < r1.year then some (r0, r1) else none := by
        simp only [changeBasis, ← hrecs, hs0,
          List.getLast?_eq_getLast_of_ne_nil hrestne, ← hr1]
      have hspan : yearSpan df sz = r1.year - r0.year := by
        unfold yearSpan
        rw [← hrecs, hs0, List.getLast?_eq_getLast_of_ne_nil (List.cons_ne_nil r0 (b :: t)),
          hlast]
        simp
      rw [hcb, hspan]
      constructor
      · intro hnone
        right
        by_cases hlt : r0.year < r1.year
        · rw [if_pos hlt] at hnone
          cases hnone
        · omega
      · intro hdisj
        have hnlt : ¬ r0.year < r1.year := by
          rcases hdisj with hd | hd
          · intro hlt
            have h2 : 2 ≤ ((recs.map (fun r => r.year)).dedup).length := by
              apply two_le_dedup_of_mem_ne (a := r0.year) (b := r1.year)
              · exact List.mem_map.2 ⟨r0, hr0mem, rfl⟩
              · exact List.mem_map.2 ⟨r1, hr1mem, rfl⟩
              · omega
            omega
          · omega
        rw [if_neg hnlt]

theorem contains_true_iff {α : Type _} [DecidableEq α] (l : List α) (a : α) :
    l.contains a = true ↔ a ∈ l := by
  simp [List.elem_eq_mem]

theorem mem_dropDupSeen : ∀ (l seen : List PriceRecord) (x : PriceRecord),
    x ∈ dropDupSeen seen l → x ∈ l ∧ x ∉ seen := by
  intro l
  induction l with
  | nil => intro seen x hx; cases hx
  | cons r rest ih =>
    intro seen x hx
    unfold dropDupSeen at hx
    by_cases hr : seen.contains r = true
    · rw [if_pos hr] at hx
      obtain ⟨h1, h2⟩ := ih seen x hx
      exact ⟨List.mem_cons_of_mem r h1, h2⟩
    · rw [if_neg hr] at hx
      rcases List.mem_cons.1 hx with h1 | h1
      · subst h1
        refine ⟨List.mem_cons_self x rest, ?_⟩
        intro hmem
        exact hr ((contains_true_iff seen x).2 hmem)
      · obtain ⟨h1', h2⟩ := ih (r :: seen) x h1
        exact ⟨List.mem_cons_of_mem r h1',
          fun hmem => h2 (List.mem_cons_of_mem r hmem)⟩

theorem dropDupSeen_nodup : ∀ (l seen : List PriceRecord), (dropDupSeen seen l).Nodup := by
  intro l
  induction l with
  | nil => intro seen; exact List.nodup_nil
  | cons r rest ih =>
    intro seen
    unfold dropDupSeen
    by_cases hr : seen.contains r = true
    · rw [if_pos hr]
      exact ih seen
    · rw [if_neg hr]
      rw [List.nodup_cons]
      constructor
      · intro hmem
        exact (mem_dropDupSeen rest (r :: seen) r hmem).2 (List.mem_cons_self r seen)
      · exact ih (r :: seen)

theorem load_error_eq (text : String) (e : String)
    (hp : processLines ⟨none, none⟩ (splitLines text.toList) = .error e) :
    load_and_process_data text = .error e := by
  have hp' : processLines ⟨none, none⟩ (splitLines text.data) = .error e := hp
  simp [load_and_process_data, hp']

theorem load_empty_eq (text : String)
    (hp : processLines ⟨none, none⟩ (splitLines text.toList) = .ok []) :
    load_and_process_data text = .error "KeyError: year" := by
  have hp' : processLines ⟨none, none⟩ (splitLines text.data) = .ok [] := hp
  simp [load_and_process_data, hp']

theorem load_ok_eq (text : String) (cable : List PriceRecord)
    (hp : processLines ⟨none, none⟩ (splitLines text.toList) = .ok cable)
    (hc : cable.isEmpty = false) :
    load_and_process_data text = .ok (List.insertionSort keyLE (dropDuplicates cable)) := by
  have hp' : processLines ⟨none, none⟩ (splitLines text.data) = .ok cable := hp
  have hcne : cable ≠ [] := by
    cases cable with
    | nil => cases hc
    | cons a t => exact List.cons_ne_nil a t
  simp [load_and_process_data, hp', hcne]

theorem processLine_invariant (st st2 : ScanState) (line : List Char)
    (orec : Option PriceRecord) (hok : sizeOK st)
    (h : processLine st line = .ok (st2, orec)) :
    sizeOK st2 ∧ ∀ r, orec = some r → 0 < r.price ∧ isSizeToken r.size.toList = true := by
  unfold processLine at h
  cases hy : findYear line with
  | some y =>
    simp only [hy] at h
    injection h with h'
    cases h'
    constructor
    · intro ss hss
      exact hok ss hss
    · intro r hr
      cases hr
  | none =>
    cases hs : findSize line with
    | some s =>
      simp only [hy, hs] at h
      injection h with h'
      cases h'
      constructor
      · intro ss hss
        injection hss with hss'
        subst hss'
        exact findSize_token line s hs
      · intro r hr
        cases hr
    | none =>
      cases hp : findPrice line with
      | none =>
        simp only [hy, hs, hp] at h
        injection h with h'
        cases h'
        exact ⟨hok, fun r hr => by cases hr⟩
      | some p =>
        cases hcy : st.current_year with
        | none =>
          simp only [hy, hs, hp, hcy] at h
          cases hcs : st.current_size with
          | none =>
            simp only [hcs] at h
            injection h with h'
            cases h'
            exact ⟨hok, fun r hr => by cases hr⟩
          | some ss =>
            simp only [hcs] at h
            injection h with h'
            cases h'
            exact ⟨hok, fun r hr => by cases hr⟩
        | some ys =>
          cases hcs : st.current_size with
          | none =>
            simp only [hy, hs, hp, hcy, hcs] at h
            injection h with h'
            cases h'
            exact ⟨hok, fun r hr => by cases hr⟩
          | some ss =>
            simp only [hy, hs, hp, hcy, hcs] at h
            cases hpi : intOfDigits (p.filter (fun c => c ≠ ',')) with
            | none =>
              simp only [hpi] at h
              cases h
            | some v =>
              simp only [hpi] at h
              by_cases hv : 0 < v
              · rw [if_pos hv] at h
                cases hyi : intOfDigits ys with
                | none =>
                  rw [hyi] at h
                  cases h
                | some yv =>
                  rw [hyi] at h
                  injection h with h'
                  cases h'
                  refine ⟨hok, fun r hr => ?_⟩
                  injection hr with hr'
                  subst hr'
                  exact ⟨hv, hok ss hcs⟩
              · rw [if_neg hv] at h
                injection h with h'
                cases h'
                exact ⟨hok, fun r hr => by cases hr⟩

theorem processLines_invariant : ∀ (lines : List (List Char)) (st : ScanState)
    (out : List PriceRecord), sizeOK st → processLines st lines = .ok out →
    ∀ r ∈ out, 0 < r.price ∧ isSizeToken r.size.toList = true := by
  intro lines
  induction lines with
  | nil =>
    intro st out hok h r hr
    unfold processLines at h
    injection h with h'
    subst h'
    cases hr
  | cons l ls ih =>
    intro st out hok h r hr
    unfold processLines at h
    cases hpl : processLine st l with
    | error e =>
      simp only [hpl] at h
      cases h
    | ok pr =>
      obtain ⟨st2, orec⟩ := pr
      simp only [hpl] at h
      cases hrest : processLines st2 ls with
      | error e =>
        simp only [hrest] at h
        cases h
      | ok rest =>
        simp only [hrest] at h
        injection h with h'
        subst h'
        have hinv := processLine_invariant st st2 l orec hok hpl
        rcases List.mem_append.1 hr with h1 | h1
        · cases orec with
          | none => cases h1
          | some r2 =>
            have hr2 : r = r2 := by simpa using h1
            subst hr2
            exact hinv.2 r rfl
        · exact ih st2 rest hinv.1 hrest r h1

/-- C8: any RecordSet returned by the extractor contains no duplicate
(year, size, price) triple and is sorted by year ascending numerically,
with records of equal year ordered by size ascending as strings. -/
theorem c8_extract_dedup_sorted (text : String) (rs : List PriceRecord)
    (h : load_and_process_data text = .ok rs) :
    rs.Nodup ∧
    rs.Pairwise (fun a b => a.year < b.year ∨ (a.year = b.year ∧ a.size ≤ b.size)) := by
  cases hp : processLines ⟨none, none⟩ (splitLines text.toList) with
  | error e =>
    rw [load_error_eq text e hp] at h
    cases h
  | ok cable =>
    cases cable with
    | nil =>
      rw [load_empty_eq text hp] at h
      cases h
    | cons c0 ct =>
      rw [load_ok_eq text (c0 :: ct) hp rfl] at h
      injection h with h'
      subst h'
      constructor
      · exact (List.perm_insertionSort keyLE (dropDuplicates (c0 :: ct))).nodup_iff.2
          (dropDupSeen_nodup (c0 :: ct) [])
      · exact List.sorted_insertionSort keyLE (dropDuplicates (c0 :: ct))

theorem c8_extract_dedup_sorted_witness :
    ([⟨2020, "2.5SQ", 1000⟩, ⟨2023, "2.5SQ", 1300⟩] : List PriceRecord).Nodup ∧
    ([⟨2020, "2.5SQ", 1000⟩, ⟨2023, "2.5SQ", 1300⟩] : List PriceRecord).Pairwise
      (fun a b => a.year < b.year ∨ (a.year = b.year ∧ a.size ≤ b.size)) :=
  c8_extract_dedup_sorted sampleText
    [⟨2020, "2.5SQ", 1000⟩, ⟨2023, "2.5SQ", 1300⟩] (by decide)

/-- C9: every record of a RecordSet returned by the extractor has a
strictly positive price and a size matching the `<number>SQ` grammar;
moreover a price line of value `0` appends no record even with both
state fields set, and a price line seen before any year or size line
appends no record. -/
theorem c9_record_invariants :
    (∀ (text : String) (rs : List PriceRecord), load_and_process_data text = .ok rs →
      ∀ r ∈ rs, 0 < r.price ∧ isSizeToken r.size.toList = true) ∧
    (∀ st : ScanState, processLine st ['0'] = .ok (st, none)) ∧
    processLine ⟨none, none⟩ ['1', ',', '0', '0', '0'] = .ok (⟨none, none⟩, none) := by
  refine ⟨?_, ?_, by decide⟩
  · intro text rs h r hr
    cases hp : processLines ⟨none, none⟩ (splitLines text.toList) with
    | error e =>
      rw [load_error_eq text e hp] at h
      cases h
    | ok cable =>
      cases cable with
      | nil =>
        rw [load_empty_eq text hp] at h
        cases h
      | cons c0 ct =>
        rw [load_ok_eq text (c0 :: ct) hp rfl] at h
        injection h with h'
        subst h'
        have hr1 : r ∈ dropDuplicates (c0 :: ct) :=
          (List.perm_insertionSort keyLE (dropDuplicates (c0 :: ct))).mem_iff.1 hr
        have hr2 : r ∈ c0 :: ct := (mem_dropDupSeen (c0 :: ct) [] r hr1).1
        have hstOK : sizeOK ⟨none, none⟩ := fun ss hss => by cases hss
        exact processLines_invariant _ _ _ hstOK hp r hr2
  · intro st
    have hy : findYear ['0'] = none := by decide
    have hs : findSize ['0'] = none := by decide
    have hpr : findPrice ['0'] = some ['0'] := by decide
    cases hcy : st.current_year with
    | none => exact processLine_price_missing st _ _ hy hs hpr (Or.inl hcy)
    | some ys =>
      cases hcs : st.current_size with
      | none => exact processLine_price_missing st _ _ hy hs hpr (Or.inr hcs)
      | some ss =>
        simp only [processLine, hy, hs, hpr, hcy, hcs]
        rfl

theorem c9_record_invariants_witness :
    0 < (⟨2021, "4SQ", 500⟩ : PriceRecord).price ∧
    isSizeToken (⟨2021, "4SQ", 500⟩ : PriceRecord).size.toList = true :=
  c9_record_invariants.1 "2021년\n4SQ\n500" [⟨2021, "4SQ", 500⟩] (by decide)
    ⟨2021, "4SQ", 500⟩ (by decide)

